import Mathlib

/-! Verification of the goamis storage core (`main.go`).

The program stores named page-configuration documents in a bolt database
(a single bucket `"page"` holding byte-string keys in lexicographic byte
order) and exposes CRUD handlers `getConfig`, `saveConfig`, `deleteConfig`,
`listConfig`, plus a seed loader `initBoltDB` that walks the embedded
`static` directory and writes every `.json` file into the bucket.

Modelling conventions:
* Go strings and byte slices are byte strings; both are modelled as
  `List Nat` (each element one byte value).
* The bolt bucket is modelled as an association list kept sorted by key
  in strictly increasing lexicographic byte order — this is exactly the
  observable behaviour of a bolt bucket: `Get` is keyed lookup, `Put` is
  a sorted upsert (failing on an empty key, bolt's `ErrKeyRequired`),
  `Delete` removes the key if present, and `ForEach` iterates in sorted
  key order.
* `saveConfig`'s request is bound by gin's `ShouldBindJSON` into
  `pageItem`. The struct's rules are written under `validate:` tags, a
  tag name gin's validator never reads (gin enforces `binding:` tags
  only), so no field validation actually happens: every bound
  (name, config) pair reaches `bucket.Put`, and the only rejection is
  bolt's `ErrKeyRequired` for an empty key. `json.Valid` — the check
  the inert `json` rule names — is still modelled (`jsonValid`) to
  express the "syntactically valid JSON document" notion the spec's
  properties quantify over.
* `initBoltDB`'s `fs.WalkDir` callback is modelled per directory entry
  (`SeedEntry`): the entry's path, whether it is a directory, and the
  result of `ReadFile` on it.
-/

namespace Goamis

/-- A Go byte string: one `Nat` per byte. -/
abbrev Bytes := List Nat

/-- Strict lexicographic order on byte strings (`bytes.Compare _ _ < 0`),
the key order of a bolt bucket. A proper prefix is smaller. -/
def bytesLt : Bytes → Bytes → Bool
  | [], [] => false
  | [], _ :: _ => true
  | _ :: _, [] => false
  | a :: as, b :: bs => if a < b then true else if b < a then false else bytesLt as bs

/-- The contents of the bolt bucket `"page"`: an association list of
(key, value) pairs, kept sorted by `bytesLt` on keys. -/
abbrev Store := List (Bytes × Bytes)

/-- `bucket.Get(k)`: `none` models bolt returning `nil` for an absent key. -/
def boltGet : Store → Bytes → Option Bytes
  | [], _ => none
  | (k, v) :: rest, key => if key = k then some v else boltGet rest key

/-- Sorted insert-or-replace: the effect of a successful `bucket.Put(k, v)`
on the bucket's key-ordered contents. -/
def boltPutRaw : Store → Bytes → Bytes → Store
  | [], k, v => [(k, v)]
  | (k2, v2) :: rest, k, v =>
    if bytesLt k k2 then (k, v) :: (k2, v2) :: rest
    else if k = k2 then (k, v) :: rest
    else (k2, v2) :: boltPutRaw rest k v

/-- `bucket.Put(k, v)`: bolt rejects an empty key (`ErrKeyRequired`). -/
def boltPut (s : Store) (k v : Bytes) : Except Unit Store :=
  if k = [] then .error () else .ok (boltPutRaw s k v)

/-- `bucket.Delete(k)`: removes the entry if present; absent key is a no-op. -/
def boltDelete : Store → Bytes → Store
  | [], _ => []
  | (k2, v2) :: rest, k => if k = k2 then rest else (k2, v2) :: boltDelete rest k

/-- Well-formedness of the modelled bucket: keys strictly increasing in
lexicographic byte order (hence unique), as bolt maintains. -/
abbrev StoreWF (s : Store) : Prop :=
  List.Pairwise (fun a b => bytesLt a.1 b.1 = true) s

/-! UTF-8 encoding, to spell Go string literals as their bytes. -/

/-- UTF-8 encoding of one Unicode code point. -/
def encodeChar (n : Nat) : Bytes :=
  if n < 0x80 then [n]
  else if n < 0x800 then [0xC0 + n / 0x40, 0x80 + n % 0x40]
  else if n < 0x10000 then
    [0xE0 + n / 0x1000, 0x80 + (n / 0x40) % 0x40, 0x80 + n % 0x40]
  else
    [0xF0 + n / 0x40000, 0x80 + (n / 0x1000) % 0x40, 0x80 + (n / 0x40) % 0x40, 0x80 + n % 0x40]

/-- The UTF-8 bytes of a string — the bytes of the same Go string literal. -/
def utf8Bytes (s : String) : Bytes :=
  s.data.foldr (fun c acc => encodeChar c.toNat ++ acc) []

/-- The Go raw-string literal `page404Data` from `main.go` line 31.
In a Go backquoted string `\n` is two literal characters (backslash, n),
hence the escaped backslash here. -/
def page404Data : Bytes :=
  utf8Bytes "\x7b\"type\":\"page\",\"title\":\"404\",\"body\":[\x7b\"type\":\"markdown\",\"value\":\"# 🚫 Oops,  找不到对应的页面配置\\n[👉 点击我返回页面列表](/)\"\x7d],\"regions\":[\"body\"]\x7d"

/-! Go encoding/json syntax validation, the function json.Valid.

`jsonValid` models `json.Valid`, the standard library's byte-level JSON
scanner — the syntactic-validity notion the spec's properties use and
the one `pageItem`'s (inert) `validate:"required,json"` tag names; the
program itself never runs this check.  The recursive-descent
functions below accept exactly the inputs that scanner accepts: optional
whitespace (space, tab, CR, LF), one JSON value, optional trailing
whitespace, end of input.  Inside strings any byte `≥ 0x20` other than
`"` and `\` is accepted verbatim (the scanner does not check UTF-8), and
escapes are `\" \\ \/ \b \f \n \r \t` and `\u` with four hex digits.
Numbers follow `-? (0 | [1-9][0-9]*) (. [0-9]+)? ([eE] [+-]? [0-9]+)?`.

Recursion is fuelled; each unit of fuel spent either consumes at least
one input byte first, or is immediately followed by a call that does, so
`2 * length + 2` fuel never runs out on any input. -/

def isWS (c : Nat) : Bool := c = 32 || c = 9 || c = 10 || c = 13

def isDigit (c : Nat) : Bool := 48 ≤ c && c ≤ 57

def isHex (c : Nat) : Bool := isDigit c || (97 ≤ c && c ≤ 102) || (65 ≤ c && c ≤ 70)

def skipWS : Bytes → Bytes
  | [] => []
  | c :: rest => if isWS c then skipWS rest else c :: rest

/-- Match a fixed byte sequence (rest of a literal `true`/`false`/`null`). -/
def matchLit : Bytes → Bytes → Option Bytes
  | [], b => some b
  | _ :: _, [] => none
  | l :: ls, c :: rest => if c = l then matchLit ls rest else none

/-- `(0 | [1-9][0-9]*)` — after `0` no further digits are consumed. -/
def parseInt : Bytes → Option Bytes
  | [] => none
  | c :: rest =>
    if c = 48 then some rest
    else if isDigit c then some (rest.dropWhile isDigit)
    else none

/-- Optional fraction part `(. [0-9]+)?`. -/
def parseFrac : Bytes → Option Bytes
  | 46 :: rest =>
    match rest with
    | c :: rest2 => if isDigit c then some (rest2.dropWhile isDigit) else none
    | [] => none
  | b => some b

/-- Optional exponent part `([eE] [+-]? [0-9]+)?`. -/
def parseExpPart : Bytes → Option Bytes
  | [] => some []
  | c :: rest =>
    if c = 101 || c = 69 then
      match (match rest with
             | s :: r => if s = 43 || s = 45 then r else s :: r
             | [] => []) with
      | d :: r => if isDigit d then some (r.dropWhile isDigit) else none
      | [] => none
    else some (c :: rest)

/-- A number after its optional leading minus. -/
def parseNumberTail (b : Bytes) : Option Bytes :=
  match parseInt b with
  | none => none
  | some b1 =>
    match parseFrac b1 with
    | none => none
    | some b2 => parseExpPart b2

/-- String body after the opening quote; returns the input after the
closing quote. -/
def parseStr : Nat → Bytes → Option Bytes
  | 0, _ => none
  | _ + 1, [] => none
  | f + 1, c :: rest =>
    if c = 34 then some rest
    else if c = 92 then
      match rest with
      | [] => none
      | e :: rest2 =>
        if e = 117 then
          match rest2 with
          | h1 :: h2 :: h3 :: h4 :: rest3 =>
            if isHex h1 && isHex h2 && isHex h3 && isHex h4 then parseStr f rest3 else none
          | _ => none
        else if e = 34 || e = 92 || e = 47 || e = 98 || e = 102 || e = 110 || e = 114 || e = 116 then
          parseStr f rest2
        else none
    else if c < 32 then none
    else parseStr f rest

mutual

/-- One JSON value; input starts at its first byte. -/
def parseValue : Nat → Bytes → Option Bytes
  | 0, _ => none
  | _ + 1, [] => none
  | f + 1, c :: rest =>
    if c = 34 then parseStr f rest
    else if c = 116 then matchLit [114, 117, 101] rest
    else if c = 102 then matchLit [97, 108, 115, 101] rest
    else if c = 110 then matchLit [117, 108, 108] rest
    else if c = 45 then parseNumberTail rest
    else if isDigit c then parseNumberTail (c :: rest)
    else if c = 123 then
      match skipWS rest with
      | 125 :: r => some r
      | b2 => parseMembers f b2
    else if c = 91 then
      match skipWS rest with
      | 93 :: r => some r
      | b2 => parseElems f b2
    else none

/-- One or more `"key" : value` members, ending at the closing brace. -/
def parseMembers : Nat → Bytes → Option Bytes
  | 0, _ => none
  | f + 1, b =>
    match b with
    | 34 :: r =>
      (match parseStr f r with
       | none => none
       | some r1 =>
         match skipWS r1 with
         | 58 :: r2 =>
           (match parseValue f (skipWS r2) with
            | none => none
            | some r3 =>
              match skipWS r3 with
              | 44 :: r4 => parseMembers f (skipWS r4)
              | 125 :: r4 => some r4
              | _ => none)
         | _ => none)
    | _ => none

/-- One or more array elements, ending at the closing bracket. -/
def parseElems : Nat → Bytes → Option Bytes
  | 0, _ => none
  | f + 1, b =>
    match parseValue f b with
    | none => none
    | some r1 =>
      match skipWS r1 with
      | 44 :: r2 => parseElems f (skipWS r2)
      | 93 :: r2 => some r2
      | _ => none

end

/-- Go's `json.Valid`: optional whitespace, one value, optional
whitespace, end of input. -/
def jsonValid (b : Bytes) : Bool :=
  match parseValue (2 * b.length + 2) (skipWS b) with
  | some rest => (skipWS rest).isEmpty
  | none => false

/-! HTTP handlers over the store. -/

/-- The JSON envelope `basicResp` (only the fields the handlers set). -/
structure BasicResp where
  status : Int
  msg : String
deriving DecidableEq, Repr

/-- Result of `getConfig`: either an aborted `basicResp` or raw bytes
served with `c.Data`. -/
inductive GetResp where
  | resp (r : BasicResp)
  | data (b : Bytes)
deriving DecidableEq, Repr

/-- Result of `listConfig`: the `items`/`total` payload (status is 0;
the error branch is unreachable since the per-entry callback never
fails and the bucket exists). Items are (name, config) pairs in
`ForEach` (sorted key) order. -/
structure ListResp where
  items : List (Bytes × Bytes)
  total : Nat
deriving DecidableEq, Repr

/-- `getConfig` (`main.go` 156–173): empty name aborts with an error;
otherwise the stored bytes are served, except that a missing key (bolt
`Get` returns `nil`) or a stored value of length 0 both fall through to
`page404Data` via the `len(pageData) == 0` test. -/
def getConfig (s : Store) (name : Bytes) : GetResp :=
  if name = [] then .resp ⟨-1, "name is empty"⟩
  else
    let pageData := (boltGet s name).getD []
    if pageData.length = 0 then .data page404Data else .data pageData

/-- `deleteConfig` (`main.go` 175–189): empty name aborts; otherwise the
key is deleted (idempotent) and success is reported. Returns the
response and the store after the transaction. -/
def deleteConfig (s : Store) (name : Bytes) : BasicResp × Store :=
  if name = [] then (⟨-1, "name is empty"⟩, s)
  else (⟨0, "delete page config successfully"⟩, boltDelete s name)

/-- `saveConfig` (`main.go` 191–205), acting on a bound `pageItem`
(name, config): the `validate:"required"` / `validate:"required,json"`
tags are never enforced, because gin's `ShouldBindJSON` runs the
validator under the `binding:` tag name, so every bound pair goes
straight to `Put` inside `Update`. The only failure is bolt's
`ErrKeyRequired` ("key required") for an empty name, on which `Update`
rolls back and leaves the store unchanged. -/
def saveConfig (s : Store) (name config : Bytes) : BasicResp × Store :=
  match boltPut s name config with
  | .error _ => (⟨-1, "key required"⟩, s)
  | .ok s2 => (⟨0, "save page config successfully"⟩, s2)

/-- `listConfig` (`main.go` 138–154): collects every (key, value) pair in
`ForEach` order — the bucket's sorted key order, i.e. the model list
itself — and reports the count. -/
def listConfig (s : Store) : ListResp :=
  { items := s, total := s.length }

/-! Seed loading: initBoltDB, main.go 46-87. -/

/-- One directory entry seen by the `fs.WalkDir` callback: its path,
whether it is a directory, and what `systemStatic.ReadFile` on it
returns (`.error` models a read failure). -/
structure SeedEntry where
  path : Bytes
  isDir : Bool
  read : Except Unit Bytes
deriving Repr

/-- `filepath.Split`'s file component: everything after the last `/` (47). -/
def baseName (path : Bytes) : Bytes :=
  ((path.reverse.takeWhile (fun c => c ≠ 47)).reverse)

/-- `filepath.Ext`: the suffix from the final dot (46), empty if no dot. -/
def fileExt (name : Bytes) : Bytes :=
  let t := name.reverse.takeWhile (fun c => c ≠ 46)
  if t.length = name.length then [] else 46 :: t.reverse

/-- `strings.TrimSuffix`. -/
def trimSuffix (s suf : Bytes) : Bytes :=
  if suf.isSuffixOf s then s.take (s.length - suf.length) else s

/-- The bytes of `".json"`. -/
def extJson : Bytes := [46, 106, 115, 111, 110]

/-- The body of the `fs.WalkDir` callback in `initBoltDB` for one entry:
directories are skipped, non-`.json` extensions are skipped, a read
failure is logged and skipped, a `Put` failure is logged and skipped;
otherwise the file's content is stored under the filename with its
extension trimmed. -/
def seedStep (s : Store) (e : SeedEntry) : Store :=
  if e.isDir then s
  else
    let filename := baseName e.path
    let ext := fileExt filename
    if ext ≠ extJson then s
    else
      match e.read with
      | .error _ => s
      | .ok pageData =>
        match boltPut s (trimSuffix filename ext) pageData with
        | .error _ => s
        | .ok s2 => s2

/-- The seeding phase of `initBoltDB`: the walk applies `seedStep` to
each entry in enumeration order, starting from the database's prior
contents (the bucket is created if absent; `amis.db` persists across
restarts). -/
def initBoltDB (seeds : List SeedEntry) (s : Store) : Store :=
  List.foldl seedStep s seeds

/-- The (name, document) pair an entry contributes to the store, if any:
`none` for directories, non-`.json` extensions, read failures, and the
empty trimmed name (rejected by `Put`). -/
def seedPairOf (e : SeedEntry) : Option (Bytes × Bytes) :=
  if e.isDir then none
  else
    let filename := baseName e.path
    let ext := fileExt filename
    if ext ≠ extJson then none
    else
      match e.read with
      | .error _ => none
      | .ok pageData =>
        if trimSuffix filename ext = [] then none
        else some (trimSuffix filename ext, pageData)

/-! Order lemmas for bytesLt. -/

theorem bytesLt_irrefl : ∀ (a : Bytes), bytesLt a a = false
  | [] => rfl
  | x :: xs => by simp [bytesLt, bytesLt_irrefl xs]

theorem bytesLt_trans : ∀ (a b c : Bytes),
    bytesLt a b = true → bytesLt b c = true → bytesLt a c = true
  | [], [], _, h1, _ => by simp [bytesLt] at h1
  | [], _ :: _, [], _, h2 => by simp [bytesLt] at h2
  | [], _ :: _, _ :: _, _, _ => rfl
  | _ :: _, [], _, h1, _ => by simp [bytesLt] at h1
  | _ :: _, _ :: _, [], _, h2 => by simp [bytesLt] at h2
  | x :: xs, y :: ys, z :: zs, h1, h2 => by
    simp only [bytesLt] at h1 h2 ⊢
    rcases Nat.lt_trichotomy x y with hxy | hxy | hxy
    · rcases Nat.lt_trichotomy y z with hyz | hyz | hyz
      · rw [if_pos (Nat.lt_trans hxy hyz)]
      · subst hyz; rw [if_pos hxy]
      · rw [if_neg (by omega), if_pos hyz] at h2; simp at h2
    · subst hxy
      rw [if_neg (lt_irrefl x), if_neg (lt_irrefl x)] at h1
      rcases Nat.lt_trichotomy x z with hxz | hxz | hxz
      · rw [if_pos hxz]
      · subst hxz
        rw [if_neg (lt_irrefl x), if_neg (lt_irrefl x)] at h2 ⊢
        exact bytesLt_trans xs ys zs h1 h2
      · rw [if_neg (by omega), if_pos hxz] at h2; simp at h2
    · rw [if_neg (by omega), if_pos hxy] at h1; simp at h1

theorem bytesLt_total : ∀ (a b : Bytes), bytesLt a b = false → a ≠ b → bytesLt b a = true
  | [], [], _, hne => absurd rfl hne
  | [], _ :: _, h, _ => by simp [bytesLt] at h
  | _ :: _, [], _, _ => rfl
  | x :: xs, y :: ys, h, hne => by
    simp only [bytesLt] at h ⊢
    rcases Nat.lt_trichotomy x y with hlt | heq | hgt
    · rw [if_pos hlt] at h; simp at h
    · subst heq
      rw [if_neg (lt_irrefl x), if_neg (lt_irrefl x)] at h ⊢
      exact bytesLt_total xs ys h (fun hh => hne (by rw [hh]))
    · rw [if_pos hgt]

/-! Lookup, insert and delete lemmas for the modelled bucket. -/

theorem boltGet_putRaw_self : ∀ (s : Store) (k v : Bytes),
    boltGet (boltPutRaw s k v) k = some v
  | [], k, v => by simp [boltPutRaw, boltGet]
  | (k2, v2) :: rest, k, v => by
    simp only [boltPutRaw]
    split_ifs with h1 h2
    · simp [boltGet]
    · simp [boltGet]
    · simp only [boltGet]
      rw [if_neg h2]
      exact boltGet_putRaw_self rest k v

theorem boltGet_putRaw_ne : ∀ (s : Store) (k v m : Bytes), m ≠ k →
    boltGet (boltPutRaw s k v) m = boltGet s m
  | [], k, v, m, h => by simp [boltPutRaw, boltGet, h]
  | (k2, v2) :: rest, k, v, m, h => by
    simp only [boltPutRaw]
    split_ifs with h1 h2
    · simp [boltGet, h]
    · subst h2
      simp [boltGet, h]
    · simp only [boltGet]
      by_cases hm : m = k2
      · simp [hm]
      · rw [if_neg hm, if_neg hm]
        exact boltGet_putRaw_ne rest k v m h

theorem mem_putRaw : ∀ (s : Store) (k v : Bytes) (p : Bytes × Bytes),
    p ∈ boltPutRaw s k v → p = (k, v) ∨ p ∈ s
  | [], k, v, p, hp => by
    simp [boltPutRaw] at hp
    exact Or.inl hp
  | (k2, v2) :: rest, k, v, p, hp => by
    simp only [boltPutRaw] at hp
    split_ifs at hp with h1 h2
    · rw [List.mem_cons] at hp
      exact hp
    · rw [List.mem_cons] at hp
      rcases hp with h | h
      · exact Or.inl h
      · exact Or.inr (List.mem_cons_of_mem _ h)
    · rw [List.mem_cons] at hp
      rcases hp with h | h
      · exact Or.inr (h ▸ List.mem_cons_self _ _)
      · rcases mem_putRaw rest k v p h with h3 | h3
        · exact Or.inl h3
        · exact Or.inr (List.mem_cons_of_mem _ h3)

theorem putRaw_perm : ∀ (s : Store) (k v : Bytes), boltGet s k = none →
    List.Perm (boltPutRaw s k v) ((k, v) :: s)
  | [], _, _, _ => by simp [boltPutRaw]
  | (k2, v2) :: rest, k, v, h => by
    simp only [boltGet] at h
    by_cases hk : k = k2
    · simp [hk] at h
    · rw [if_neg hk] at h
      simp only [boltPutRaw]
      split_ifs with h1
      · exact List.Perm.refl _
      · exact (List.Perm.cons _ (putRaw_perm rest k v h)).trans (List.Perm.swap _ _ _)

theorem putRaw_wf : ∀ (s : Store) (k v : Bytes), StoreWF s → StoreWF (boltPutRaw s k v)
  | [], k, v, _ => by simp [boltPutRaw]
  | (k2, v2) :: rest, k, v, h => by
    obtain ⟨h1, h2⟩ := List.pairwise_cons.1 h
    simp only [boltPutRaw]
    split_ifs with hlt heq
    · refine List.Pairwise.cons ?_ h
      intro p hp
      rcases List.mem_cons.1 hp with rfl | hp2
      · exact hlt
      · exact bytesLt_trans _ _ _ hlt (h1 p hp2)
    · subst heq
      exact List.Pairwise.cons (fun p hp => h1 p hp) h2
    · refine List.Pairwise.cons ?_ (putRaw_wf rest k v h2)
      intro p hp
      rcases mem_putRaw rest k v p hp with rfl | hp2
      · exact bytesLt_total k k2 (by simpa using hlt) heq
      · exact h1 p hp2

theorem boltGet_eq_none : ∀ (s : Store) (k : Bytes), (∀ p ∈ s, p.1 ≠ k) →
    boltGet s k = none
  | [], _, _ => rfl
  | (k2, v2) :: rest, k, h => by
    simp only [boltGet]
    rw [if_neg (fun hh => h (k2, v2) (List.mem_cons_self _ _) hh.symm)]
    exact boltGet_eq_none rest k (fun p hp => h p (List.mem_cons_of_mem _ hp))

theorem boltDelete_absent : ∀ (s : Store) (k : Bytes), boltGet s k = none →
    boltDelete s k = s
  | [], _, _ => rfl
  | (k2, v2) :: rest, k, h => by
    simp only [boltGet] at h
    simp only [boltDelete]
    by_cases hk : k = k2
    · simp [hk] at h
    · rw [if_neg hk] at h ⊢
      rw [boltDelete_absent rest k h]

theorem boltDelete_sublist : ∀ (s : Store) (k : Bytes), (boltDelete s k).Sublist s
  | [], _ => List.Sublist.refl _
  | (k2, v2) :: rest, k => by
    simp only [boltDelete]
    split_ifs with hk
    · exact List.sublist_cons_self _ _
    · exact List.Sublist.cons₂ _ (boltDelete_sublist rest k)

theorem boltDelete_wf (s : Store) (k : Bytes) (h : StoreWF s) : StoreWF (boltDelete s k) :=
  List.Pairwise.sublist (boltDelete_sublist s k) h

theorem boltGet_delete_ne : ∀ (s : Store) (k m : Bytes), m ≠ k →
    boltGet (boltDelete s k) m = boltGet s m
  | [], _, _, _ => rfl
  | (k2, v2) :: rest, k, m, h => by
    simp only [boltDelete]
    split_ifs with hk
    · subst hk
      simp only [boltGet]
      rw [if_neg h]
    · simp only [boltGet]
      by_cases hm : m = k2
      · simp [hm]
      · rw [if_neg hm, if_neg hm]
        exact boltGet_delete_ne rest k m h

theorem boltGet_delete_self : ∀ (s : Store) (k : Bytes), StoreWF s →
    boltGet (boltDelete s k) k = none
  | [], _, _ => rfl
  | (k2, v2) :: rest, k, h => by
    obtain ⟨h1, h2⟩ := List.pairwise_cons.1 h
    simp only [boltDelete]
    split_ifs with hk
    · subst hk
      refine boltGet_eq_none rest k (fun p hp hpk => ?_)
      have h3 := h1 p hp
      rw [hpk, bytesLt_irrefl] at h3
      simp at h3
    · simp only [boltGet]
      rw [if_neg hk]
      exact boltGet_delete_self rest k h2

/-! Handler lemmas. -/

theorem boltPut_ok (s : Store) (k v : Bytes) (hk : k ≠ []) :
    boltPut s k v = .ok (boltPutRaw s k v) := by
  simp [boltPut, hk]

theorem saveConfig_ok (s : Store) (n d : Bytes) (hn : n ≠ []) :
    saveConfig s n d = (⟨0, "save page config successfully"⟩, boltPutRaw s n d) := by
  unfold saveConfig
  rw [boltPut_ok s n d hn]

theorem saveConfig_err (s : Store) (d : Bytes) :
    saveConfig s [] d = (⟨-1, "key required"⟩, s) := rfl

theorem saveConfig_wf (s : Store) (n d : Bytes) (h : StoreWF s) :
    StoreWF (saveConfig s n d).2 := by
  by_cases hn : n = []
  · subst hn
    rw [saveConfig_err]
    exact h
  · rw [saveConfig_ok s n d hn]
    exact putRaw_wf s n d h

/-- The store after saving each (name, document) pair of `ps` in order
(the scenario of the list-completeness property). -/
def saveAll (ps : List (Bytes × Bytes)) (s : Store) : Store :=
  List.foldl (fun st p => (saveConfig st p.1 p.2).2) s ps

theorem saveAll_wf : ∀ (ps : List (Bytes × Bytes)) (s : Store),
    StoreWF s → StoreWF (saveAll ps s)
  | [], _, h => h
  | p :: rest, s, h => saveAll_wf rest _ (saveConfig_wf s p.1 p.2 h)

theorem saveAll_perm : ∀ (ps : List (Bytes × Bytes)) (s : Store),
    (∀ p ∈ ps, p.1 ≠ [] ∧ p.2 ≠ [] ∧ jsonValid p.2 = true) →
    (ps.map Prod.fst).Nodup →
    (∀ p ∈ ps, boltGet s p.1 = none) →
    List.Perm (saveAll ps s) (ps ++ s)
  | [], s, _, _, _ => by simp [saveAll]
  | p :: rest, s, hv, hnd, hfresh => by
    obtain ⟨hn, -, -⟩ := hv p (List.mem_cons_self _ _)
    have hnd2 : (p.1 ∉ rest.map Prod.fst) ∧ (rest.map Prod.fst).Nodup :=
      List.nodup_cons.1 (by simpa using hnd)
    have hone : saveAll (p :: rest) s = saveAll rest (boltPutRaw s p.1 p.2) := by
      simp [saveAll, saveConfig_ok s p.1 p.2 hn]
    rw [hone]
    have hrest : ∀ q ∈ rest, boltGet (boltPutRaw s p.1 p.2) q.1 = none := by
      intro q hq
      have hne : q.1 ≠ p.1 := fun hh => hnd2.1 (hh ▸ List.mem_map_of_mem Prod.fst hq)
      rw [boltGet_putRaw_ne s p.1 p.2 q.1 hne]
      exact hfresh q (List.mem_cons_of_mem _ hq)
    have ih := saveAll_perm rest (boltPutRaw s p.1 p.2)
      (fun q hq => hv q (List.mem_cons_of_mem _ hq)) hnd2.2 hrest
    refine ih.trans ?_
    have hp : List.Perm (boltPutRaw s p.1 p.2) (p :: s) := by
      simpa using putRaw_perm s p.1 p.2 (hfresh p (List.mem_cons_self _ _))
    refine (List.Perm.append_left rest hp).trans ?_
    exact List.perm_middle

/-! Seed-loading lemmas. -/

theorem seedStep_eq (s : Store) (e : SeedEntry) :
    seedStep s e = (match seedPairOf e with
      | none => s
      | some kv => boltPutRaw s kv.1 kv.2) := by
  obtain ⟨p, dir, rd⟩ := e
  cases dir <;> cases rd <;>
    simp only [seedStep, seedPairOf, boltPut] <;>
    try rfl
  all_goals split_ifs <;> rfl

theorem seedPairOf_key_ne_nil : ∀ (e : SeedEntry) (kv : Bytes × Bytes),
    seedPairOf e = some kv → kv.1 ≠ []
  | ⟨p, dir, rd⟩, kv, h => by
    cases dir <;> cases rd <;> simp only [seedPairOf] at h <;> try simp at h
    obtain ⟨h1, h2, h3⟩ := h
    rw [← h3]
    exact h2

theorem initBoltDB_cons (e : SeedEntry) (rest : List SeedEntry) (s : Store) :
    initBoltDB (e :: rest) s = initBoltDB rest (seedStep s e) := rfl

theorem initBoltDB_append (xs ys : List SeedEntry) (s : Store) :
    initBoltDB (xs ++ ys) s = initBoltDB ys (initBoltDB xs s) :=
  List.foldl_append _ _ _ _

theorem initBoltDB_frame : ∀ (seeds : List SeedEntry) (s : Store) (m : Bytes),
    (∀ e ∈ seeds, ∀ kv : Bytes × Bytes, seedPairOf e = some kv → kv.1 ≠ m) →
    boltGet (initBoltDB seeds s) m = boltGet s m
  | [], _, _, _ => rfl
  | e :: rest, s, m, h => by
    rw [initBoltDB_cons,
      initBoltDB_frame rest (seedStep s e) m (fun e2 he2 => h e2 (List.mem_cons_of_mem _ he2)),
      seedStep_eq]
    cases hp : seedPairOf e with
    | none => rfl
    | some kv =>
      exact boltGet_putRaw_ne s kv.1 kv.2 m
        (Ne.symm (h e (List.mem_cons_self _ _) kv hp))

/-- One `seedStep` whose entry's read failed leaves the store unchanged. -/
theorem seedStep_read_error (s2 : Store) (e : SeedEntry) (herr : e.read = .error ()) :
    seedStep s2 e = s2 := by
  simp only [seedStep]
  split_ifs with h1 h2
  · rfl
  · rfl
  · rw [herr]

/-! Claim theorems. -/

/-- C1: for every store, non-empty name `n` and non-empty syntactically
valid JSON document `d`, `saveConfig n d` followed by `getConfig n`
returns exactly the bytes `d`. -/
theorem save_get_roundtrip (s : Store) (n d : Bytes)
    (hn : n ≠ []) (hd : d ≠ []) (hj : jsonValid d = true) :
    getConfig (saveConfig s n d).2 n = .data d := by
  rw [saveConfig_ok s n d hn]
  show getConfig (boltPutRaw s n d) n = .data d
  unfold getConfig
  rw [if_neg hn, boltGet_putRaw_self]
  simp [List.length_eq_zero, hd]

theorem save_get_roundtrip_witness :
    getConfig (saveConfig [] [97] [123, 125]).2 [97] = .data [123, 125] :=
  save_get_roundtrip [] [97] [123, 125] (by decide) (by decide) (by decide)

/-- C2 counterexample: `getConfig` with an empty name does not return the
fallback document — it aborts with the error response
`{status = -1, msg = "name is empty"}` (shown here on the empty store). -/
theorem get_empty_name_counterexample :
    getConfig [] [] = .resp ⟨-1, "name is empty"⟩ ∧
    getConfig [] [] ≠ .data page404Data := by
  refine ⟨rfl, ?_⟩
  rw [show getConfig [] [] = .resp ⟨-1, "name is empty"⟩ from rfl]
  exact fun h => GetResp.noConfusion h

/-- C2 (amended): for a non-empty name with no stored entry, `getConfig`
returns the fixed fallback document `page404Data`; for an empty name it
instead fails with the error response `{status = -1, msg = "name is empty"}`. -/
theorem get_fallback_amended (s : Store) (n : Bytes) :
    (n ≠ [] → boltGet s n = none → getConfig s n = .data page404Data) ∧
    (n = [] → getConfig s n = .resp ⟨-1, "name is empty"⟩) := by
  constructor
  · intro hn habs
    unfold getConfig
    rw [if_neg hn, habs]
    rfl
  · intro hn
    unfold getConfig
    rw [if_pos hn]

theorem get_fallback_amended_witness :
    getConfig [] [97] = .data page404Data ∧
    getConfig [] [] = .resp ⟨-1, "name is empty"⟩ :=
  ⟨(get_fallback_amended [] [97]).1 (by decide) rfl,
   (get_fallback_amended [] []).2 rfl⟩

/-- C3: if entry `e` of the walked seed list contributes the pair
`(n, A)` (with `A` non-empty) and no later entry contributes a pair
named `n`, then after seeding over any prior store `s` — in particular
one already holding some `B` under `n` — `getConfig n` returns `A`;
and any name `m` contributed by no seed entry reads exactly as in the
prior store. -/
theorem seed_overwrite_and_frame (xs ys : List SeedEntry) (e : SeedEntry)
    (s : Store) (n A m : Bytes)
    (he : seedPairOf e = some (n, A)) (hA : A ≠ [])
    (hlater : ∀ e2 ∈ ys, ∀ kv : Bytes × Bytes, seedPairOf e2 = some kv → kv.1 ≠ n)
    (hm : ∀ e2 ∈ xs ++ e :: ys, ∀ kv : Bytes × Bytes, seedPairOf e2 = some kv → kv.1 ≠ m) :
    getConfig (initBoltDB (xs ++ e :: ys) s) n = .data A ∧
    getConfig (initBoltDB (xs ++ e :: ys) s) m = getConfig s m := by
  have hn : n ≠ [] := seedPairOf_key_ne_nil e (n, A) he
  constructor
  · have hrw : initBoltDB (xs ++ e :: ys) s
        = initBoltDB ys (seedStep (initBoltDB xs s) e) := by
      rw [initBoltDB_append, initBoltDB_cons]
    have hstep : seedStep (initBoltDB xs s) e = boltPutRaw (initBoltDB xs s) n A := by
      rw [seedStep_eq, he]
    have hget : boltGet (initBoltDB (xs ++ e :: ys) s) n = some A := by
      rw [hrw, initBoltDB_frame ys _ n hlater, hstep, boltGet_putRaw_self]
    unfold getConfig
    rw [if_neg hn, hget]
    simp [List.length_eq_zero, hA]
  · have hget : boltGet (initBoltDB (xs ++ e :: ys) s) m = boltGet s m :=
      initBoltDB_frame _ s m hm
    unfold getConfig
    rw [hget]

theorem seed_overwrite_and_frame_witness :
    getConfig
      (initBoltDB [⟨utf8Bytes "static/home.json", false, .ok [123, 125]⟩]
        [(utf8Bytes "home", [91, 93])])
      (utf8Bytes "home") = .data [123, 125] ∧
    getConfig
      (initBoltDB [⟨utf8Bytes "static/home.json", false, .ok [123, 125]⟩]
        [(utf8Bytes "home", [91, 93])])
      [120] = getConfig [(utf8Bytes "home", [91, 93])] [120] :=
  seed_overwrite_and_frame [] [] ⟨utf8Bytes "static/home.json", false, .ok [123, 125]⟩
    [(utf8Bytes "home", [91, 93])] (utf8Bytes "home") [123, 125] [120]
    (by decide)
    (by decide)
    (by intro e2 he2 kv hkv; exact absurd he2 (List.not_mem_nil e2))
    (by
      intro e2 he2 kv hkv
      simp only [List.nil_append, List.mem_singleton] at he2
      subst he2
      rw [show seedPairOf ⟨utf8Bytes "static/home.json", false, .ok [123, 125]⟩
            = some (utf8Bytes "home", [123, 125]) from by decide] at hkv
      injection hkv with hh
      rw [← hh]
      decide)

/-- C4 (code bug): the claimed validation is the intent declared by
`pageItem`'s `validate:"required"` / `validate:"required,json"` tags and
by the spec, but gin's `ShouldBindJSON` enforces only `binding:` tags,
so the rules never run. Evaluated at the failing inputs: with the
non-empty name `"x"`, the syntactically invalid document `"{no"` — and
likewise the empty document — binds, is stored by `Put`, and the call
reports status 0, mutating the store instead of rejecting; with an
empty name the failure is bolt's storage error `"key required"`, not a
validation error. -/
theorem save_no_validation_code_bug :
    jsonValid [123, 110, 111] = false ∧
    saveConfig [] [120] [123, 110, 111]
      = (⟨0, "save page config successfully"⟩, [([120], [123, 110, 111])]) ∧
    saveConfig [] [120] [] = (⟨0, "save page config successfully"⟩, [([120], [])]) ∧
    saveConfig [] [] [123, 125] = (⟨-1, "key required"⟩, []) :=
  ⟨by decide, rfl, rfl, rfl⟩

/-- C5: deleting a non-empty absent name succeeds and leaves the store
unchanged, and on any well-formed store deleting the same name twice
leaves the same store as deleting it once. -/
theorem delete_idempotent (s : Store) (n : Bytes) (hwf : StoreWF s) :
    (n ≠ [] → boltGet s n = none →
      (deleteConfig s n).1 = ⟨0, "delete page config successfully"⟩ ∧
      (deleteConfig s n).2 = s) ∧
    (deleteConfig (deleteConfig s n).2 n).2 = (deleteConfig s n).2 := by
  constructor
  · intro hn habs
    unfold deleteConfig
    rw [if_neg hn, boltDelete_absent s n habs]
    exact ⟨rfl, rfl⟩
  · by_cases hn : n = []
    · simp [deleteConfig, hn]
    · have h2 : (deleteConfig s n).2 = boltDelete s n := by simp [deleteConfig, hn]
      rw [h2]
      have h3 : boltGet (boltDelete s n) n = none := boltGet_delete_self s n hwf
      simp [deleteConfig, hn, boltDelete_absent (boltDelete s n) n h3]

theorem delete_idempotent_witness :
    (deleteConfig [([98], [50])] [97]).2 = [([98], [50])] ∧
    (deleteConfig (deleteConfig [([98], [50])] [97]).2 [97]).2
      = (deleteConfig [([98], [50])] [97]).2 :=
  ⟨((delete_idempotent [([98], [50])] [97] (by simp)).1 (by decide) rfl).2,
   (delete_idempotent [([98], [50])] [97] (by simp)).2⟩

/-- C6: after saving distinct-named valid pairs `ps` into the empty
store, `listConfig` reports `total = ps.length` and its items are
exactly the saved pairs, sorted strictly by name in lexicographic byte
order. -/
theorem list_complete (ps : List (Bytes × Bytes))
    (hvalid : ∀ p ∈ ps, p.1 ≠ [] ∧ p.2 ≠ [] ∧ jsonValid p.2 = true)
    (hnodup : (ps.map Prod.fst).Nodup) :
    (listConfig (saveAll ps [])).total = ps.length ∧
    List.Perm (listConfig (saveAll ps [])).items ps ∧
    List.Pairwise (fun a b => bytesLt a.1 b.1 = true) (listConfig (saveAll ps [])).items := by
  have hperm : List.Perm (saveAll ps []) (ps ++ []) :=
    saveAll_perm ps [] hvalid hnodup (fun p hp => rfl)
  rw [List.append_nil] at hperm
  exact ⟨hperm.length_eq, hperm, saveAll_wf ps [] List.Pairwise.nil⟩

theorem list_complete_witness :
    (listConfig (saveAll [([98], [49]), ([97], [50])] [])).total = 2 ∧
    List.Perm (listConfig (saveAll [([98], [49]), ([97], [50])] [])).items
      [([98], [49]), ([97], [50])] ∧
    List.Pairwise (fun a b => bytesLt a.1 b.1 = true)
      (listConfig (saveAll [([98], [49]), ([97], [50])] [])).items :=
  list_complete [([98], [49]), ([97], [50])] (by decide) (by decide)

/-- C7: a walked file whose filename's extension is not `".json"`
contributes nothing to the store, and a loaded `.json` file is stored
under its filename with the `".json"` suffix stripped. -/
theorem seed_suffix_filter_and_naming (s : Store) (e : SeedEntry) :
    (e.isDir = false → fileExt (baseName e.path) ≠ extJson → seedStep s e = s) ∧
    (∀ d : Bytes, e.isDir = false → fileExt (baseName e.path) = extJson →
      e.read = .ok d → trimSuffix (baseName e.path) extJson ≠ [] →
      seedStep s e = boltPutRaw s (trimSuffix (baseName e.path) extJson) d) := by
  constructor
  · intro hdir hext
    simp only [seedStep]
    rw [if_neg (by simp [hdir]), if_pos hext]
  · intro d hdir hext hread hname
    simp only [seedStep]
    rw [hext, if_neg (by simp [hdir]), if_neg (by simp), hread]
    show (match boltPut s (trimSuffix (baseName e.path) extJson) d with
          | Except.error _ => s
          | Except.ok s2 => s2) = boltPutRaw s (trimSuffix (baseName e.path) extJson) d
    rw [boltPut_ok s (trimSuffix (baseName e.path) extJson) d hname]

theorem seed_suffix_filter_and_naming_witness :
    seedStep [] ⟨utf8Bytes "static/amis.tmpl", false, .ok [49]⟩ = [] ∧
    seedStep [] ⟨utf8Bytes "static/home.json", false, .ok [123, 125]⟩
      = boltPutRaw [] (trimSuffix (baseName (utf8Bytes "static/home.json")) extJson)
          [123, 125] :=
  ⟨(seed_suffix_filter_and_naming [] ⟨utf8Bytes "static/amis.tmpl", false, .ok [49]⟩).1
      rfl (by decide),
   (seed_suffix_filter_and_naming [] ⟨utf8Bytes "static/home.json", false, .ok [123, 125]⟩).2
      [123, 125] rfl (by decide) rfl (by decide)⟩

/-- C8: a seed entry whose read fails contributes nothing: seeding the
walked list with it is the same as seeding the list without it, so all
other seed pairs are still written. -/
theorem seed_read_failure_skips_one (xs ys : List SeedEntry) (e : SeedEntry) (s : Store)
    (herr : e.read = .error ()) :
    initBoltDB (xs ++ e :: ys) s = initBoltDB (xs ++ ys) s := by
  rw [initBoltDB_append, initBoltDB_append, initBoltDB_cons,
    seedStep_read_error (initBoltDB xs s) e herr]

theorem seed_read_failure_skips_one_witness :
    initBoltDB [⟨utf8Bytes "static/a.json", false, .ok [49]⟩,
                ⟨utf8Bytes "static/bad.json", false, .error ()⟩,
                ⟨utf8Bytes "static/c.json", false, .ok [50]⟩] [] =
    initBoltDB [⟨utf8Bytes "static/a.json", false, .ok [49]⟩,
                ⟨utf8Bytes "static/c.json", false, .ok [50]⟩] [] :=
  seed_read_failure_skips_one
    [⟨utf8Bytes "static/a.json", false, .ok [49]⟩]
    [⟨utf8Bytes "static/c.json", false, .ok [50]⟩]
    ⟨utf8Bytes "static/bad.json", false, .error ()⟩ [] rfl

/-- C9: `getConfig` conflates an empty stored value with absence — when
the stored entry is the empty byte string, it returns the fallback
document, because the fallback triggers on `length = 0`, not on key
absence. -/
theorem get_conflates_empty_value (s : Store) (n : Bytes) (hn : n ≠ [])
    (hstored : boltGet s n = some []) :
    getConfig s n = .data page404Data := by
  unfold getConfig
  rw [if_neg hn, hstored]
  rfl

theorem get_conflates_empty_value_witness :
    getConfig [([97], [])] [97] = .data page404Data :=
  get_conflates_empty_value [([97], [])] [97] (by decide) rfl

/-- C10: `saveConfig n d` and `deleteConfig n` do not change what
`getConfig m` observes for any other name `m ≠ n` (whether the call
succeeds or is rejected). -/
theorem save_delete_frame (s : Store) (n d m : Bytes) (hm : m ≠ n) :
    getConfig (saveConfig s n d).2 m = getConfig s m ∧
    getConfig (deleteConfig s n).2 m = getConfig s m := by
  constructor
  · by_cases hn : n = []
    · subst hn
      rw [saveConfig_err]
    · rw [saveConfig_ok s n d hn]
      show getConfig (boltPutRaw s n d) m = getConfig s m
      unfold getConfig
      rw [boltGet_putRaw_ne s n d m hm]
  · by_cases hn : n = []
    · unfold deleteConfig
      rw [if_pos hn]
    · unfold deleteConfig
      rw [if_neg hn]
      show getConfig (boltDelete s n) m = getConfig s m
      unfold getConfig
      rw [boltGet_delete_ne s n m hm]

theorem save_delete_frame_witness :
    getConfig (saveConfig [] [97] [123, 125]).2 [98] = getConfig [] [98] ∧
    getConfig (deleteConfig [] [97]).2 [98] = getConfig [] [98] :=
  save_delete_frame [] [97] [123, 125] [98] (by decide)

end Goamis
